import Mathlib

/-!
A shallow embedding of the symptom-scoring pipeline of `script.py`:
Jaccard similarity, weighted similarity, the Bayes-style combiner,
the `diagnose` ranking routine, and the frequency-based weight deriver.

Python sets of strings are modelled as `Finset String` (via `List.toFinset`);
Python dicts are modelled as association lists `List (String × _)` whose keys
are distinct (a dict invariant), with `dict_get` embedding the `d.get(k, default)`
pattern.  Exact numeric arithmetic is modelled in `ℚ`; the weight deriver uses
`Real.sqrt` and therefore lives in `ℝ`.
-/

/-- Embeds the Python pattern `m.get(k, d)` on a dict modelled as an
association list: the value of the first entry whose key is `k`, else `d`. -/
def dict_get {β : Type} (m : List (String × β)) (k : String) (d : β) : β :=
  match m.find? (fun p => p.1 == k) with
  | some p => p.2
  | none => d

/-- Embeds `calculate_similarity`: the Jaccard index of the two symptom sets,
with 0.0 returned when the union is empty. -/
def calculate_similarity (user_symptoms disease_symptoms : List String) : ℚ :=
  if (user_symptoms.toFinset ∪ disease_symptoms.toFinset).card = 0 then 0
  else ((user_symptoms.toFinset ∩ disease_symptoms.toFinset).card : ℚ) /
       ((user_symptoms.toFinset ∪ disease_symptoms.toFinset).card : ℚ)

/-- Embeds the `weighted_intersection` accumulator of
`calculate_weighted_similarity`: the sum of the weights (default 1.0) of the
symptoms in both sets. -/
def weighted_intersection (user_symptoms disease_symptoms : List String)
    (symptom_weights : List (String × ℚ)) : ℚ :=
  ∑ s ∈ user_symptoms.toFinset ∩ disease_symptoms.toFinset, dict_get symptom_weights s 1

/-- Embeds the `weighted_union` accumulator of `calculate_weighted_similarity`:
the sum of the weights (default 1.0) of the symptoms in either set. -/
def weighted_union (user_symptoms disease_symptoms : List String)
    (symptom_weights : List (String × ℚ)) : ℚ :=
  ∑ s ∈ user_symptoms.toFinset ∪ disease_symptoms.toFinset, dict_get symptom_weights s 1

/-- Embeds `calculate_weighted_similarity`: weighted intersection over weighted
union, with 0.0 returned when the weighted union is 0. -/
def calculate_weighted_similarity (user_symptoms disease_symptoms : List String)
    (symptom_weights : List (String × ℚ)) : ℚ :=
  if weighted_union user_symptoms disease_symptoms symptom_weights = 0 then 0
  else weighted_intersection user_symptoms disease_symptoms symptom_weights /
       weighted_union user_symptoms disease_symptoms symptom_weights

/-- Embeds `bayesian_probability`, generically over a field so that it can be
read both at `ℚ` (inside `diagnose`) and at `ℝ` (the spec speaks of reals):
`(likelihood * prior) / evidence`, and 0.0 when `evidence` is 0. -/
def bayesian_probability {α : Type} [Field α] [DecidableEq α]
    (prior_probability likelihood evidence : α) : α :=
  if evidence = 0 then 0 else likelihood * prior_probability / evidence

/-- Embeds the `likelihoods` dict built by the first loop of `diagnose`:
for each condition, its weighted similarity against the user's symptoms.
The keys of `disease_data` are distinct (it models a Python dict). -/
def likelihoods (user_symptoms : List String) (disease_data : List (String × List String))
    (symptom_weights : List (String × ℚ)) : List (String × ℚ) :=
  disease_data.map (fun c => (c.1, calculate_weighted_similarity user_symptoms c.2 symptom_weights))

/-- Embeds the `total_evidence` accumulator of `diagnose`: the sum of all
conditions' likelihoods. -/
def total_evidence (user_symptoms : List String) (disease_data : List (String × List String))
    (symptom_weights : List (String × ℚ)) : ℚ :=
  ((likelihoods user_symptoms disease_data symptom_weights).map Prod.snd).sum

/-- Embeds the `results` list built by the second loop of `diagnose`, before
sorting: for each condition, its label paired with the posterior computed from
its prior (default 0.01), its likelihood looked up in the `likelihoods` dict
(the key is always present, so the lookup default 0 is never used), and the
shared `total_evidence`. -/
def diagnose_results (user_symptoms : List String) (disease_data : List (String × List String))
    (symptom_weights prior_probabilities : List (String × ℚ)) : List (String × ℚ) :=
  disease_data.map (fun c =>
    (c.1, bayesian_probability (dict_get prior_probabilities c.1 (1 / 100))
      (dict_get (likelihoods user_symptoms disease_data symptom_weights) c.1 0)
      (total_evidence user_symptoms disease_data symptom_weights)))

/-- The comparison handed to the sort in `diagnose`:
`results.sort(key=lambda x: x[1], reverse=True)` orders by score descending. -/
def score_le (a b : String × ℚ) : Bool :=
  decide (b.2 ≤ a.2)

/-- Embeds `diagnose`: the results list, stably sorted by score descending
(Python's `list.sort` is a stable sort; so is `List.mergeSort`). -/
def diagnose (user_symptoms : List String) (disease_data : List (String × List String))
    (symptom_weights prior_probabilities : List (String × ℚ)) : List (String × ℚ) :=
  (diagnose_results user_symptoms disease_data symptom_weights prior_probabilities).mergeSort
    score_le

/-- Embeds the `all_symptoms` list of `get_symptom_weights`: the concatenation
of every condition's symptom list (duplicates kept, as `extend` keeps them). -/
def all_symptoms (disease_data : List (String × List String)) : List String :=
  (disease_data.map Prod.snd).flatten

/-- Embeds the `symptom_counts` dict of `get_symptom_weights`: each distinct
symptom of `all_symptoms` mapped to its number of occurrences there. -/
def symptom_counts (disease_data : List (String × List String)) : List (String × ℕ) :=
  (all_symptoms disease_data).dedup.map
    (fun s => (s, (all_symptoms disease_data).count s))

/-- Embeds `get_symptom_weights`: each counted symptom mapped to
`1.0 / math.sqrt(count)`. -/
noncomputable def get_symptom_weights (disease_data : List (String × List String)) :
    List (String × ℝ) :=
  (symptom_counts disease_data).map (fun p => (p.1, 1 / Real.sqrt (p.2 : ℝ)))

/-- C4: `bayesian_probability p l e` is 0.0 when the evidence `e` is 0, and is
exactly `(l * p) / e` when `e ≠ 0`, for all real `p`, `l`, `e`. -/
theorem bayesian_probability_spec (p l e : ℝ) :
    (e = 0 → bayesian_probability p l e = 0) ∧
    (e ≠ 0 → bayesian_probability p l e = l * p / e) := by
  constructor
  · intro h
    simp [bayesian_probability, h]
  · intro h
    simp [bayesian_probability, h]

/-- Witness for C4 at `p = 3`, `l = 5`, and `e = 0` resp. `e = 2`. -/
theorem bayesian_probability_spec_witness :
    bayesian_probability (3 : ℝ) 5 0 = 0 ∧ bayesian_probability (3 : ℝ) 5 2 = 5 * 3 / 2 :=
  ⟨(bayesian_probability_spec 3 5 0).1 rfl,
   (bayesian_probability_spec 3 5 2).2 two_ne_zero⟩

/-- C6: `calculate_similarity` is symmetric in its two symptom collections. -/
theorem calculate_similarity_comm (A B : List String) :
    calculate_similarity A B = calculate_similarity B A := by
  unfold calculate_similarity
  rw [Finset.union_comm, Finset.inter_comm]

/-- C9: on an empty condition table, `diagnose` returns the empty ranking,
whatever the user symptoms, weight map and prior map. -/
theorem diagnose_empty_table (user_symptoms : List String)
    (symptom_weights prior_probabilities : List (String × ℚ)) :
    diagnose user_symptoms [] symptom_weights prior_probabilities = [] := by
  simp [diagnose, diagnose_results]

/-- A `dict_get` on a key-distinct association list returns the stored value. -/
theorem dict_get_of_mem {β : Type} {l : List (String × β)} {k : String} {v d : β}
    (hnd : (l.map Prod.fst).Nodup) (hm : (k, v) ∈ l) : dict_get l k d = v := by
  induction l with
  | nil => simp at hm
  | cons a t ih =>
    simp only [List.map_cons, List.nodup_cons] at hnd
    rcases List.mem_cons.mp hm with h | h
    · subst h
      simp [dict_get]
    · have hk : a.1 ≠ k := by
        intro he
        exact hnd.1 (he ▸ List.mem_map_of_mem Prod.fst h)
      unfold dict_get
      rw [List.find?_cons_of_neg _ (by simp [hk])]
      exact ih hnd.2 h

/-- A `dict_get` either falls back to the default or returns the value of an
entry of the list whose key matches. -/
theorem dict_get_mem_or_default {β : Type} (l : List (String × β)) (k : String) (d : β) :
    dict_get l k d = d ∨ ∃ p ∈ l, p.1 = k ∧ dict_get l k d = p.2 := by
  unfold dict_get
  cases h : l.find? (fun p => p.1 == k) with
  | none => exact Or.inl rfl
  | some p =>
    refine Or.inr ⟨p, List.mem_of_find?_eq_some h, ?_, rfl⟩
    have hp := List.find?_some h
    simpa using hp

/-- Weight lookups with default 1 are positive when every stored weight is. -/
theorem dict_get_pos (w : List (String × ℚ)) (hw : ∀ p ∈ w, 0 < p.2) (s : String) :
    0 < dict_get w s 1 := by
  rcases dict_get_mem_or_default w s 1 with h | ⟨p, hp, _, h⟩
  · rw [h]
    norm_num
  · rw [h]
    exact hw p hp

/-- Weight lookups with default 1 are non-negative when every stored weight is. -/
theorem dict_get_nonneg (w : List (String × ℚ)) (hw : ∀ p ∈ w, 0 ≤ p.2) (s : String) :
    0 ≤ dict_get w s 1 := by
  rcases dict_get_mem_or_default w s 1 with h | ⟨p, hp, _, h⟩
  · rw [h]
    norm_num
  · rw [h]
    exact hw p hp

/-- C5: when every symptom of either collection carries weight 1.0 (stored or
by the default-1.0 fallback), weighted similarity coincides with the
unweighted Jaccard index. -/
theorem weighted_similarity_eq_jaccard (A B : List String) (w : List (String × ℚ))
    (hw : ∀ s ∈ A.toFinset ∪ B.toFinset, dict_get w s 1 = 1) :
    calculate_weighted_similarity A B w = calculate_similarity A B := by
  have hu : weighted_union A B w = ((A.toFinset ∪ B.toFinset).card : ℚ) := by
    unfold weighted_union
    rw [Finset.sum_congr rfl hw]
    simp
  have hi : weighted_intersection A B w = ((A.toFinset ∩ B.toFinset).card : ℚ) := by
    unfold weighted_intersection
    rw [Finset.sum_congr rfl (fun s hs => hw s (Finset.inter_subset_union hs))]
    simp
  unfold calculate_weighted_similarity calculate_similarity
  rw [hu, hi]
  by_cases h : (A.toFinset ∪ B.toFinset).card = 0
  · simp [h]
  · have hc : ((A.toFinset ∪ B.toFinset).card : ℚ) ≠ 0 := Nat.cast_ne_zero.mpr h
    simp [h, hc]

/-- Witness for C5 on `A = ["a"]`, `B = ["a", "b"]` and a weight map whose
only entry is for a symptom outside both collections. -/
theorem weighted_similarity_eq_jaccard_witness :
    calculate_weighted_similarity ["a"] ["a", "b"] [("c", 2)] =
      calculate_similarity ["a"] ["a", "b"] :=
  weighted_similarity_eq_jaccard ["a"] ["a", "b"] [("c", 2)] (by decide)

/-- C8: on two empty symptom collections both similarity functions return 0.0,
and (for weight maps with positive entries, as the data model requires) the
weighted union is 0 only in that case. -/
theorem similarity_empty_inputs (w : List (String × ℚ)) (hw : ∀ p ∈ w, 0 < p.2) :
    calculate_similarity [] [] = 0 ∧
    calculate_weighted_similarity [] [] w = 0 ∧
    ∀ A B : List String, weighted_union A B w = 0 → A = [] ∧ B = [] := by
  refine ⟨by simp [calculate_similarity],
    by simp [calculate_weighted_similarity, weighted_union], ?_⟩
  intro A B h
  by_contra hne
  have hne' : A.toFinset ∪ B.toFinset ≠ ∅ := by
    intro he
    rcases Finset.union_eq_empty.mp he with ⟨ha, hb⟩
    exact hne ⟨(List.toFinset_eq_empty_iff A).mp ha, (List.toFinset_eq_empty_iff B).mp hb⟩
  have hpos : 0 < weighted_union A B w :=
    Finset.sum_pos (fun s _ => dict_get_pos w hw s) (Finset.nonempty_iff_ne_empty.mpr hne')
  exact absurd h (ne_of_gt hpos)

/-- Witness for C8 with the weight map `[("a", 1)]` and both collections
empty. -/
theorem similarity_empty_inputs_witness :
    calculate_similarity [] [] = 0 ∧
    calculate_weighted_similarity [] [] [("a", (1 : ℚ))] = 0 ∧
    (([] : List String) = [] ∧ ([] : List String) = []) := by
  have h := similarity_empty_inputs [("a", (1 : ℚ))] (by decide)
  exact ⟨h.1, h.2.1, h.2.2 [] [] (by decide)⟩

/-- The keys of the `likelihoods` dict are exactly the condition labels, in
table order. -/
theorem likelihoods_keys (user_symptoms : List String)
    (disease_data : List (String × List String)) (symptom_weights : List (String × ℚ)) :
    (likelihoods user_symptoms disease_data symptom_weights).map Prod.fst =
      disease_data.map Prod.fst := by
  simp [likelihoods]

/-- C1: on a non-empty condition table with distinct labels (a dict invariant),
`diagnose` returns exactly one pair per condition — its output is a
permutation of the table mapped to pairs of the label and
`bayesian_probability` of the condition's prior (default 0.01), its weighted
similarity against the user's symptoms, and the shared `total_evidence`. -/
theorem diagnose_posterior_spec (user_symptoms : List String)
    (disease_data : List (String × List String))
    (symptom_weights prior_probabilities : List (String × ℚ))
    (hnd : (disease_data.map Prod.fst).Nodup) (_hne : disease_data ≠ []) :
    (diagnose user_symptoms disease_data symptom_weights prior_probabilities).Perm
      (disease_data.map (fun c => (c.1,
        bayesian_probability (dict_get prior_probabilities c.1 (1 / 100))
          (calculate_weighted_similarity user_symptoms c.2 symptom_weights)
          (total_evidence user_symptoms disease_data symptom_weights)))) := by
  have hres : diagnose_results user_symptoms disease_data symptom_weights prior_probabilities =
      disease_data.map (fun c => (c.1,
        bayesian_probability (dict_get prior_probabilities c.1 (1 / 100))
          (calculate_weighted_similarity user_symptoms c.2 symptom_weights)
          (total_evidence user_symptoms disease_data symptom_weights))) := by
    unfold diagnose_results
    apply List.map_congr_left
    intro c hc
    have hk : ((likelihoods user_symptoms disease_data symptom_weights).map Prod.fst).Nodup := by
      rw [likelihoods_keys]
      exact hnd
    have hm : (c.1, calculate_weighted_similarity user_symptoms c.2 symptom_weights) ∈
        likelihoods user_symptoms disease_data symptom_weights :=
      List.mem_map_of_mem _ hc
    rw [dict_get_of_mem hk hm]
  unfold diagnose
  rw [hres]
  exact List.mergeSort_perm _ _

/-- Witness for C1 on the two-condition table `A ↦ ["x"]`, `B ↦ ["y"]` with
user symptoms `["x"]` and empty weight and prior maps. -/
theorem diagnose_posterior_spec_witness :
    (diagnose ["x"] [("A", ["x"]), ("B", ["y"])] [] []).Perm
      ([("A", ["x"]), ("B", ["y"])].map (fun c => (c.1,
        bayesian_probability (dict_get [] c.1 (1 / 100))
          (calculate_weighted_similarity ["x"] c.2 [])
          (total_evidence ["x"] [("A", ["x"]), ("B", ["y"])] [])))) :=
  diagnose_posterior_spec ["x"] [("A", ["x"]), ("B", ["y"])] [] [] (by decide) (by decide)

/-- The descending score comparison is transitive. -/
theorem score_le_trans : ∀ (a b c : String × ℚ), score_le a b → score_le b c → score_le a c := by
  intro a b c h1 h2
  simp only [score_le, decide_eq_true_eq] at h1 h2 ⊢
  exact le_trans h2 h1

/-- The descending score comparison is total. -/
theorem score_le_total : ∀ (a b : String × ℚ), score_le a b || score_le b a := by
  intro a b
  simp only [score_le, Bool.or_eq_true, decide_eq_true_eq]
  exact le_total b.2 a.2

/-- Stability of the sort in `diagnose`: the entries carrying any fixed score
appear in the sorted output in their original relative order. -/
theorem mergeSort_score_filter_eq (L : List (String × ℚ)) (v : ℚ) :
    (L.mergeSort score_le).filter (fun q => decide (q.2 = v)) =
      L.filter (fun q => decide (q.2 = v)) := by
  have hpair : (L.filter (fun q => decide (q.2 = v))).Pairwise (fun a b => score_le a b) := by
    apply List.pairwise_of_forall_mem_list
    intro a ha b hb
    have ha2 : a.2 = v := by simpa using (List.mem_filter.mp ha).2
    have hb2 : b.2 = v := by simpa using (List.mem_filter.mp hb).2
    simp [score_le, ha2, hb2]
  have hsub : List.Sublist (L.filter (fun q => decide (q.2 = v))) (L.mergeSort score_le) :=
    List.sublist_mergeSort score_le_trans score_le_total hpair (List.filter_sublist L)
  have hsub2 : List.Sublist (L.filter (fun q => decide (q.2 = v)))
      ((L.mergeSort score_le).filter (fun q => decide (q.2 = v))) := by
    have h2 := hsub.filter (fun q => decide (q.2 = v))
    simpa [List.filter_filter] using h2
  have hlen : ((L.mergeSort score_le).filter (fun q => decide (q.2 = v))).length =
      (L.filter (fun q => decide (q.2 = v))).length :=
    ((List.mergeSort_perm L score_le).filter _).length_eq
  exact (hsub2.eq_of_length hlen.symm).symm

/-- C3: the ranking returned by `diagnose` is sorted in descending order of
score, and the pairs carrying any fixed score keep the relative order the
conditions have in the table (the order of the unsorted results list). -/
theorem diagnose_sorted_stable (user_symptoms : List String)
    (disease_data : List (String × List String))
    (symptom_weights prior_probabilities : List (String × ℚ)) :
    (diagnose user_symptoms disease_data symptom_weights prior_probabilities).Pairwise
      (fun a b => b.2 ≤ a.2) ∧
    ∀ v : ℚ,
      (diagnose user_symptoms disease_data symptom_weights prior_probabilities).filter
          (fun q => decide (q.2 = v)) =
        (diagnose_results user_symptoms disease_data symptom_weights
            prior_probabilities).filter (fun q => decide (q.2 = v)) := by
  constructor
  · have h := List.sorted_mergeSort score_le_trans score_le_total
      (diagnose_results user_symptoms disease_data symptom_weights prior_probabilities)
    exact h.imp (fun hab => by simpa [score_le] using hab)
  · intro v
    unfold diagnose
    exact mergeSort_score_filter_eq _ v

/-- Weighted similarity is non-negative whenever every stored weight is. -/
theorem calculate_weighted_similarity_nonneg (A B : List String) (w : List (String × ℚ))
    (hw : ∀ p ∈ w, 0 ≤ p.2) : 0 ≤ calculate_weighted_similarity A B w := by
  have hu : 0 ≤ weighted_union A B w :=
    Finset.sum_nonneg (fun s _ => dict_get_nonneg w hw s)
  have hi : 0 ≤ weighted_intersection A B w :=
    Finset.sum_nonneg (fun s _ => dict_get_nonneg w hw s)
  unfold calculate_weighted_similarity
  split_ifs with h
  · exact le_refl 0
  · exact div_nonneg hi hu

/-- The total evidence is non-negative whenever every stored weight is. -/
theorem total_evidence_nonneg (user_symptoms : List String)
    (disease_data : List (String × List String)) (w : List (String × ℚ))
    (hw : ∀ p ∈ w, 0 ≤ p.2) : 0 ≤ total_evidence user_symptoms disease_data w := by
  unfold total_evidence
  apply List.sum_nonneg
  intro x hx
  rcases List.mem_map.mp hx with ⟨p, hp, rfl⟩
  rcases List.mem_map.mp hp with ⟨c, _, rfl⟩
  exact calculate_weighted_similarity_nonneg user_symptoms c.2 w hw

/-- Any likelihood looked up in the `likelihoods` dict is non-negative and at
most the total evidence, whenever every stored weight is non-negative. -/
theorem likelihood_bounds (user_symptoms : List String)
    (disease_data : List (String × List String)) (w : List (String × ℚ))
    (hw : ∀ p ∈ w, 0 ≤ p.2) (k : String) :
    0 ≤ dict_get (likelihoods user_symptoms disease_data w) k 0 ∧
      dict_get (likelihoods user_symptoms disease_data w) k 0 ≤
        total_evidence user_symptoms disease_data w := by
  rcases dict_get_mem_or_default (likelihoods user_symptoms disease_data w) k 0 with h | ⟨p, hp, _, h⟩
  · rw [h]
    exact ⟨le_refl 0, total_evidence_nonneg user_symptoms disease_data w hw⟩
  · rw [h]
    have hnn : 0 ≤ p.2 := by
      rcases List.mem_map.mp hp with ⟨c, _, rfl⟩
      exact calculate_weighted_similarity_nonneg user_symptoms c.2 w hw
    refine ⟨hnn, ?_⟩
    unfold total_evidence
    apply List.single_le_sum
    · intro x hx
      rcases List.mem_map.mp hx with ⟨q, hq, rfl⟩
      rcases List.mem_map.mp hq with ⟨c, _, rfl⟩
      exact calculate_weighted_similarity_nonneg user_symptoms c.2 w hw
    · exact List.mem_map_of_mem Prod.snd hp

/-- The combiner's output lies in `[0, p]` when the prior `p` is positive and
the likelihood lies in `[0, e]`. -/
theorem bayesian_probability_bounds (p l e : ℚ) (hp0 : 0 < p) (hl : 0 ≤ l) (hle : l ≤ e) :
    0 ≤ bayesian_probability p l e ∧ bayesian_probability p l e ≤ p := by
  unfold bayesian_probability
  split_ifs with h
  · exact ⟨le_refl 0, le_of_lt hp0⟩
  · have he : 0 < e := lt_of_le_of_ne (le_trans hl hle) (Ne.symm h)
    constructor
    · exact div_nonneg (mul_nonneg hl (le_of_lt hp0)) (le_of_lt he)
    · rw [div_le_iff₀ he]
      calc l * p ≤ e * p := mul_le_mul_of_nonneg_right hle (le_of_lt hp0)
        _ = p * e := mul_comm e p

/-- Any prior looked up with default 0.01 lies in `(0, 1)` when every stored
prior does. -/
theorem prior_bounds (priors : List (String × ℚ)) (hp : ∀ q ∈ priors, 0 < q.2 ∧ q.2 < 1)
    (k : String) : 0 < dict_get priors k (1 / 100) ∧ dict_get priors k (1 / 100) < 1 := by
  rcases dict_get_mem_or_default priors k (1 / 100) with h | ⟨q, hq, _, h⟩
  · rw [h]
    norm_num
  · rw [h]
    exact hp q hq

/-- C10: when every stored weight is non-negative and every stored prior lies
in `(0, 1)`, every score produced by `diagnose` is non-negative, at most the
prior used for its condition, and hence strictly below 1. -/
theorem diagnose_score_bounds (user_symptoms : List String)
    (disease_data : List (String × List String))
    (symptom_weights prior_probabilities : List (String × ℚ))
    (hw : ∀ p ∈ symptom_weights, 0 ≤ p.2)
    (hp : ∀ q ∈ prior_probabilities, 0 < q.2 ∧ q.2 < 1)
    (r : String × ℚ)
    (hr : r ∈ diagnose user_symptoms disease_data symptom_weights prior_probabilities) :
    0 ≤ r.2 ∧ r.2 ≤ dict_get prior_probabilities r.1 (1 / 100) ∧ r.2 < 1 := by
  unfold diagnose at hr
  rw [List.mem_mergeSort] at hr
  unfold diagnose_results at hr
  rcases List.mem_map.mp hr with ⟨c, _, rfl⟩
  obtain ⟨hpr0, hpr1⟩ := prior_bounds prior_probabilities hp c.1
  obtain ⟨hl0, hle⟩ :=
    likelihood_bounds user_symptoms disease_data symptom_weights hw c.1
  obtain ⟨h0, hup⟩ := bayesian_probability_bounds _ _ _ hpr0 hl0 hle
  exact ⟨h0, hup, lt_of_le_of_lt hup hpr1⟩

/-- Witness for C10 on the one-condition table `A ↦ []` with empty user
symptoms and empty weight and prior maps, whose unique output pair is
`("A", 0)`. -/
theorem diagnose_score_bounds_witness :
    0 ≤ (0 : ℚ) ∧ (0 : ℚ) ≤ dict_get ([] : List (String × ℚ)) "A" (1 / 100) ∧ (0 : ℚ) < 1 := by
  have hsim : calculate_weighted_similarity [] [] ([] : List (String × ℚ)) = 0 := by
    simp [calculate_weighted_similarity, weighted_union]
  have hlik : likelihoods [] [("A", [])] [] = [("A", (0 : ℚ))] := by
    simp [likelihoods, hsim]
  have htot : total_evidence [] [("A", [])] [] = 0 := by
    simp [total_evidence, hlik]
  have h1 : diagnose_results [] [("A", [])] [] [] = [("A", (0 : ℚ))] := by
    simp [diagnose_results, htot, bayesian_probability]
  have hmem : ("A", (0 : ℚ)) ∈ diagnose [] [("A", [])] [] [] := by
    unfold diagnose
    rw [h1, List.mergeSort_singleton]
    exact List.mem_singleton_self _
  exact diagnose_score_bounds [] [("A", [])] [] [] (by decide) (by decide) ("A", 0) hmem

/-- Looking up an in-table symptom in the derived weight map yields
`1 / sqrt` of its occurrence count in the concatenated symptom lists. -/
theorem get_symptom_weights_lookup (disease_data : List (String × List String)) (s : String)
    (hs : s ∈ all_symptoms disease_data) :
    dict_get (get_symptom_weights disease_data) s 1 =
      1 / Real.sqrt (((all_symptoms disease_data).count s : ℝ)) := by
  apply dict_get_of_mem
  · have hkeys : (get_symptom_weights disease_data).map Prod.fst =
        (all_symptoms disease_data).dedup := by
      unfold get_symptom_weights symptom_counts
      rw [List.map_map, List.map_map]
      rw [show ((Prod.fst ∘ fun p : String × ℕ => (p.1, 1 / Real.sqrt ((p.2 : ℝ)))) ∘
          fun s => (s, (all_symptoms disease_data).count s)) = id from rfl]
      exact List.map_id _
    rw [hkeys]
    exact (all_symptoms disease_data).nodup_dedup
  · have hmem : s ∈ (all_symptoms disease_data).dedup := List.mem_dedup.mpr hs
    have h1 : (s, (all_symptoms disease_data).count s) ∈ symptom_counts disease_data :=
      List.mem_map_of_mem _ hmem
    exact List.mem_map_of_mem (fun p : String × ℕ => (p.1, 1 / Real.sqrt ((p.2 : ℝ)))) h1

/-- With duplicate-free symptom lists, occurrence counts across the
concatenation agree with the number of conditions listing the symptom. -/
theorem count_all_symptoms (disease_data : List (String × List String)) (s : String)
    (hnd : ∀ c ∈ disease_data, c.2.Nodup) :
    (all_symptoms disease_data).count s =
      disease_data.countP (fun c => decide (s ∈ c.2)) := by
  induction disease_data with
  | nil => simp [all_symptoms]
  | cons c t ih =>
    have hc : c.2.Nodup := hnd c (List.mem_cons_self c t)
    have ht : ∀ d ∈ t, d.2.Nodup := fun d hd => hnd d (List.mem_cons_of_mem c hd)
    have hall : all_symptoms (c :: t) = c.2 ++ all_symptoms t := by
      simp [all_symptoms]
    rw [hall, List.count_append, List.countP_cons, ih ht]
    by_cases hm : s ∈ c.2
    · rw [List.count_eq_one_of_mem hc hm]
      simp [hm]
      omega
    · rw [List.count_eq_zero_of_not_mem hm]
      simp [hm]

/-- Counterexample to C2 as stated: in the table `A ↦ ["x", "x"]` the symptom
`"x"` appears in exactly one condition, so the claim says its weight is
`1 / sqrt 1 = 1.0`, but the code counts occurrences (2) and assigns
`1 / sqrt 2 ≠ 1`. -/
theorem get_symptom_weights_per_condition_counterexample :
    ([("A", ["x", "x"])].countP (fun c => decide ("x" ∈ c.2)) = 1) ∧
    dict_get (get_symptom_weights [("A", ["x", "x"])]) "x" 1 ≠ 1 := by
  refine ⟨by decide, ?_⟩
  rw [get_symptom_weights_lookup _ _ (by decide)]
  have hc : (all_symptoms [("A", ["x", "x"])]).count "x" = 2 := by decide
  rw [hc]
  simp only [Nat.cast_ofNat]
  intro h
  rw [one_div, inv_eq_one] at h
  have h2 : (2 : ℝ) = 1 := Real.sqrt_eq_one.mp h
  norm_num at h2

/-- C2 (amended): each in-table symptom gets weight `1 / sqrt m` where `m` is
its number of occurrences across all conditions' symptom lists (duplicates
within one condition counted); a symptom occurring exactly once gets weight
exactly 1.0; and when no condition repeats a symptom, `m` agrees with the
number of conditions whose symptom list contains it. -/
theorem get_symptom_weights_spec (disease_data : List (String × List String)) (s : String)
    (hs : s ∈ all_symptoms disease_data) :
    dict_get (get_symptom_weights disease_data) s 1 =
      1 / Real.sqrt (((all_symptoms disease_data).count s : ℝ)) ∧
    ((all_symptoms disease_data).count s = 1 →
      dict_get (get_symptom_weights disease_data) s 1 = 1) ∧
    ((∀ c ∈ disease_data, c.2.Nodup) →
      (all_symptoms disease_data).count s =
        disease_data.countP (fun c => decide (s ∈ c.2))) := by
  refine ⟨get_symptom_weights_lookup disease_data s hs, ?_,
    count_all_symptoms disease_data s⟩
  intro h1
  rw [get_symptom_weights_lookup disease_data s hs, h1]
  simp [Real.sqrt_one]

/-- Witness for C2 (amended) on the table `A ↦ ["x"]`, `B ↦ ["x", "y"]` at the
symptom `"y"`, which occurs exactly once. -/
theorem get_symptom_weights_spec_witness :
    dict_get (get_symptom_weights [("A", ["x"]), ("B", ["x", "y"])]) "y" 1 =
      1 / Real.sqrt (((all_symptoms [("A", ["x"]), ("B", ["x", "y"])]).count "y" : ℝ)) ∧
    dict_get (get_symptom_weights [("A", ["x"]), ("B", ["x", "y"])]) "y" 1 = 1 ∧
    (all_symptoms [("A", ["x"]), ("B", ["x", "y"])]).count "y" =
      [("A", ["x"]), ("B", ["x", "y"])].countP (fun c => decide ("y" ∈ c.2)) := by
  have h := get_symptom_weights_spec [("A", ["x"]), ("B", ["x", "y"])] "y" (by decide)
  exact ⟨h.1, h.2.1 (by decide), h.2.2 (by decide)⟩

/-- Counterexample to C7 as stated: in the table `A ↦ ["x", "x"]`,
`B ↦ ["y"]`, both `"x"` and `"y"` appear in exactly one condition, so the
claim requires weight of `"x"` ≥ weight of `"y"`; but the code weighs `"x"`
by its occurrence count 2, giving `1 / sqrt 2 < 1`. -/
theorem get_symptom_weights_monotone_counterexample :
    ([("A", ["x", "x"]), ("B", ["y"])].countP (fun c => decide ("x" ∈ c.2)) ≤
      [("A", ["x", "x"]), ("B", ["y"])].countP (fun c => decide ("y" ∈ c.2))) ∧
    ¬ (dict_get (get_symptom_weights [("A", ["x", "x"]), ("B", ["y"])]) "y" 1 ≤
        dict_get (get_symptom_weights [("A", ["x", "x"]), ("B", ["y"])]) "x" 1) := by
  refine ⟨by decide, ?_⟩
  rw [get_symptom_weights_lookup _ _ (by decide), get_symptom_weights_lookup _ _ (by decide)]
  have hx : (all_symptoms [("A", ["x", "x"]), ("B", ["y"])]).count "x" = 2 := by decide
  have hy : (all_symptoms [("A", ["x", "x"]), ("B", ["y"])]).count "y" = 1 := by decide
  rw [hx, hy]
  simp only [Nat.cast_one, Nat.cast_ofNat, Real.sqrt_one, div_one]
  intro hle
  have h1 : (1 : ℝ) < Real.sqrt 2 := by
    rw [show (1 : ℝ) = Real.sqrt 1 from Real.sqrt_one.symm]
    exact Real.sqrt_lt_sqrt (by norm_num) (by norm_num)
  have h2 : 1 / Real.sqrt 2 < 1 := by
    rw [div_lt_one (lt_trans zero_lt_one h1)]
    exact h1
  linarith

/-- C7 (amended): the derived weight is monotonically non-increasing in the
symptom's occurrence count across the concatenated symptom lists. -/
theorem get_symptom_weights_monotone (disease_data : List (String × List String))
    (s t : String) (hs : s ∈ all_symptoms disease_data) (ht : t ∈ all_symptoms disease_data)
    (hc : (all_symptoms disease_data).count s ≤ (all_symptoms disease_data).count t) :
    dict_get (get_symptom_weights disease_data) t 1 ≤
      dict_get (get_symptom_weights disease_data) s 1 := by
  rw [get_symptom_weights_lookup _ _ hs, get_symptom_weights_lookup _ _ ht]
  have hspos : (0 : ℝ) < Real.sqrt (((all_symptoms disease_data).count s : ℝ)) := by
    apply Real.sqrt_pos.mpr
    exact_mod_cast List.count_pos_iff.mpr hs
  apply one_div_le_one_div_of_le hspos
  exact Real.sqrt_le_sqrt (by exact_mod_cast hc)

/-- Witness for C7 (amended) on the table `A ↦ ["x"]`, `B ↦ ["y", "x"]` with
`s = "y"` (count 1) and `t = "x"` (count 2). -/
theorem get_symptom_weights_monotone_witness :
    dict_get (get_symptom_weights [("A", ["x"]), ("B", ["y", "x"])]) "x" 1 ≤
      dict_get (get_symptom_weights [("A", ["x"]), ("B", ["y", "x"])]) "y" 1 :=
  get_symptom_weights_monotone [("A", ["x"]), ("B", ["y", "x"])] "y" "x"
    (by decide) (by decide) (by decide)
